import Mathlib

/-!
Verification development for the caith dice-roller evaluator.

The Rust sources under src/ are shallowly embedded: u64/i64 are modelled by
Nat/Int (with the explicit u64<->i64 reinterpreting casts where the code
performs them), f64 constants are modelled by exact rationals (IEEE rounding
and the saturation of float-to-int casts at the extremes of the machine range
are outside the model; every value appearing in the claims is exactly
representable), and the pluggable DiceRollSource is modelled as an infinite
replay stream with a cursor, matching the crate's own IteratorDiceRollSource
test harness.  Unbounded loops (indefinite explode / indefinite reroll) are
embedded with an explicit fuel parameter; exhausting the fuel yields the
distinguished outcome RollError.outOfFuel, so that divergence of the Rust
loop within every finite bound is expressible.  Rust slice sorts are modelled
by insertion sort: on lists of integers any comparison sort has the same
output, and for dice batches only the multiset of face values is observable
in totals and rendered history.
-/

namespace Caith

/-- Reinterpret a u64 bit pattern as an i64, as the Rust cast `as i64` does. -/
def u64_as_i64 (n : Nat) : Int :=
  let m : Nat := n % 2 ^ 64
  if m < 2 ^ 63 then (m : Int) else (m : Int) - 2 ^ 64

/-- Reinterpret an i64 as a u64, as the Rust cast `as u64` does. -/
def i64_as_u64 (x : Int) : Nat :=
  (x % 2 ^ 64).toNat

/-- Truncation of a rational toward zero, as Rust `f64::trunc` followed by
`as i64` behaves on in-range values: the numerator is divided by the
(positive) denominator with truncating division. -/
def ratTrunc (q : ℚ) : Int :=
  q.num.tdiv q.den

/-- Marker attached to a die outcome: minimum face, maximum face or ordinary.
Mirrors `Critic` in src/src/rollresult/diceresult.rs. -/
inductive Critic
  | no
  | min
  | max
deriving DecidableEq, Repr

/-- One die outcome: the rolled face and its marker.
Mirrors `DiceResult` in src/src/rollresult/diceresult.rs. -/
structure DiceResult where
  res : Nat
  crit : Critic
deriving DecidableEq, Repr

/-- Mirrors `DiceResult::new`: the marker is derived from the face value,
the side count and the value 1. -/
def DiceResult.new (value sides : Nat) : DiceResult :=
  { res := value
    crit := if value = sides then Critic.max else if value = 1 then Critic.min else Critic.no }

/-- A constant carried in the history: integer or float (modelled as ℚ).
Mirrors `Value` in src/src/rollresult/rollhistory.rs. -/
inductive Value
  | int (i : Int)
  | float (f : ℚ)
deriving DecidableEq, Repr

/-- Mirrors `Value::get_value`: the float variant is cast to i64, i.e.
truncated toward zero. -/
def Value.get_value : Value → Int
  | Value.int i => i
  | Value.float f => ratTrunc f

/-- One step of the provenance history.
Mirrors `RollHistory` in src/src/rollresult/rollhistory.rs. -/
inductive RollHistory
  | reRolls (v : List (List DiceResult))
  | roll (v : List DiceResult)
  | fudge (v : List Nat)
  | value (v : Value)
  | separator (s : String)
  | openParenthesis
  | closeParenthesis
deriving DecidableEq, Repr

/-- The grammar rules that appear as payload of `TotalModifier::None` in
src/src/parser.rs. -/
inductive Rule
  | expr
  | explode
  | iExplode
  | reroll
  | iReroll
deriving DecidableEq, Repr

/-- The accumulated total-computation strategy.
Mirrors `TotalModifier` in src/src/parser.rs. -/
inductive TotalModifier
  | keepHi (n : Nat)
  | keepLo (n : Nat)
  | dropHi (n : Nat)
  | dropLo (n : Nat)
  | targetFailureDouble (t f d : Nat)
  | targetEnum (v : List Nat)
  | fudge
  | none (r : Rule)
deriving DecidableEq, Repr

/-- Errors of the library.  `parseError` and `paramError` mirror `RollError`
in src/src/error.rs; `outOfFuel` is the embedding's marker for an unbounded
loop that did not finish within the given fuel. -/
inductive RollError
  | parseError (msg : String)
  | paramError (msg : String)
  | outOfFuel
deriving DecidableEq, Repr

/-- Ascending order on die outcomes, by face value only: this is the `Ord`
implementation of `DiceResult` (equal faces with different markers compare
equal). -/
def diceLE (a b : DiceResult) : Prop := a.res ≤ b.res

/-- Descending order on die outcomes, used by `add_history`
(`sort_unstable_by(|a, b| b.cmp(a))`). -/
def diceGE (a b : DiceResult) : Prop := b.res ≤ a.res

instance : DecidableRel diceLE := fun a b => Nat.decLe a.res b.res

instance : DecidableRel diceGE := fun a b => Nat.decLe b.res a.res

instance : IsTotal DiceResult diceLE := ⟨fun a b => Nat.le_total a.res b.res⟩

instance : IsTrans DiceResult diceLE := ⟨fun _ _ _ h1 h2 => Nat.le_trans h1 h2⟩

instance : IsTotal DiceResult diceGE := ⟨fun a b => Nat.le_total b.res a.res⟩

instance : IsTrans DiceResult diceGE := ⟨fun _ _ _ h1 h2 => Nat.le_trans h2 h1⟩

/-- Single-expression result: cached total, history, dirty flag and the
optional float constant.  Mirrors `SingleRollResult` in
src/src/rollresult/singlerollresult.rs. -/
structure SingleRollResult where
  total : Int
  history : List RollHistory
  dirty : Bool
  constant : Option ℚ
deriving DecidableEq, Repr

/-- Mirrors `SingleRollResult::new`. -/
def SingleRollResult.new : SingleRollResult :=
  { total := 0, history := [], dirty := true, constant := Option.none }

/-- Mirrors `SingleRollResult::with_total`. -/
def SingleRollResult.with_total (total : Int) : SingleRollResult :=
  { total := total
    history := [RollHistory.value (Value.int total)]
    dirty := false
    constant := Option.none }

/-- Mirrors `SingleRollResult::with_float`: the total holds the truncated
value, the exact constant is kept alongside. -/
def SingleRollResult.with_float (f : ℚ) : SingleRollResult :=
  { total := ratTrunc f
    history := [RollHistory.value (Value.float f)]
    dirty := false
    constant := some f }

/-- Mirrors `SingleRollResult::get_history`. -/
def SingleRollResult.get_history (s : SingleRollResult) : List RollHistory :=
  s.history

/-- Mirrors `SingleRollResult::add_history`: the batch is sorted in descending
face order, appended as a roll (or fudge) entry, and the dirty flag is set. -/
def SingleRollResult.add_history (s : SingleRollResult) (h : List DiceResult)
    (is_fudge : Bool) : SingleRollResult :=
  let sorted := List.insertionSort diceGE h
  { s with
    dirty := true
    history := s.history ++
      [if is_fudge then RollHistory.fudge (sorted.map (fun r => r.res))
       else RollHistory.roll sorted] }

/-- Modelled from the spec: `SingleRollResult::add_rerolled_history` is called
from src/src/parser.rs but its definition is not among the provided sources.
Per the spec (sections 3 and 4.3) it appends a reroll-chain batch (list of
before/after chains) as one history entry, and any history append sets the
dirty flag. -/
def SingleRollResult.add_rerolled_history (s : SingleRollResult)
    (rerolls : List (List DiceResult)) : SingleRollResult :=
  { s with dirty := true, history := s.history ++ [RollHistory.reRolls rerolls] }

/-- Modelled from the spec: `SingleRollResult::add_parenthesis` is called from
src/src/parser.rs but its definition is not among the provided sources.  Per
the spec (section 4.7) it marks the result's history with open and close
parenthesis brackets for display. -/
def SingleRollResult.add_parenthesis (s : SingleRollResult) : SingleRollResult :=
  { s with
    dirty := true
    history := [RollHistory.openParenthesis] ++ s.history ++ [RollHistory.closeParenthesis] }

/-- Flattening of the history into the list of contributing values, as done
at the start of `SingleRollResult::compute_total`: roll batches contribute
their faces cast to i64, fudge batches their raw faces, constants their
`get_value`; separators (and the variants the source match skips) contribute
nothing. -/
def flattenHistory (history : List RollHistory) : List Int :=
  history.foldl
    (fun acc h =>
      match h with
      | RollHistory.roll r => acc ++ r.map (fun u => u64_as_i64 u.res)
      | RollHistory.fudge r => acc ++ r.map (fun u => u64_as_i64 u)
      | RollHistory.value v => acc ++ [v.get_value]
      | _ => acc)
    []

/-- Per-value contribution under a target/failure/double-target strategy, as
in the fold of `SingleRollResult::compute_total`: the value is cast back to
u64 and compared with the three threshold fields, a field being active when
nonzero. -/
def tfdScore (t f d : Nat) (x : Int) : Int :=
  let xu := i64_as_u64 x
  if 0 < d ∧ d ≤ xu then 2
  else if 0 < t ∧ t ≤ xu then 1
  else if 0 < f ∧ xu ≤ f then -1
  else 0

/-- Mirrors `SingleRollResult::compute_total`: when dirty, flatten the
history, sort ascending, check keep/drop bounds, slice, and reduce according
to the strategy; returns the total together with the updated result. -/
def SingleRollResult.compute_total (s : SingleRollResult) (modifier : TotalModifier) :
    Except RollError (Int × SingleRollResult) :=
  if s.dirty then
    let flat := List.insertionSort (fun a b : Int => a ≤ b) (flattenHistory s.history)
    let check : Except RollError Unit :=
      match modifier with
      | TotalModifier.keepHi n | TotalModifier.keepLo n
      | TotalModifier.dropHi n | TotalModifier.dropLo n =>
        if n > flat.length then Except.error (RollError.paramError ("Not enough dice to keep or drop"))
        else Except.ok ()
      | _ => Except.ok ()
    match check with
    | Except.error e => Except.error e
    | Except.ok _ =>
      let slice :=
        match modifier with
        | TotalModifier.keepHi n => flat.drop (flat.length - n)
        | TotalModifier.keepLo n => flat.take n
        | TotalModifier.dropHi n => flat.take (flat.length - n)
        | TotalModifier.dropLo n => flat.drop n
        | _ => flat
      let total : Int :=
        match modifier with
        | TotalModifier.targetFailureDouble t f d =>
          slice.foldl (fun acc x => acc + tfdScore t f d x) 0
        | TotalModifier.targetEnum v =>
          slice.foldl (fun acc x => if i64_as_u64 x ∈ v then acc + 1 else acc) 0
        | TotalModifier.fudge =>
          slice.foldl (fun acc x => if x ≤ 2 then acc - 1 else if x ≤ 4 then acc else acc + 1) 0
        | _ => slice.foldl (fun acc x => acc + x) 0
      Except.ok (total, { s with dirty := false, total := total })
  else
    Except.ok (s.total, s)

/-- Mirrors `SingleRollResult::get_total`. -/
def SingleRollResult.get_total (s : SingleRollResult) : Int :=
  s.total

/-- Mirrors `SingleRollResult::is_zero`: the float constant is consulted when
present, the integer total otherwise. -/
def SingleRollResult.is_zero (s : SingleRollResult) : Bool :=
  match s.constant with
  | some c => c == 0
  | Option.none => s.total == 0

/-- Display of one history step, mirroring the `Display` implementation of
`RollHistory` in src/src/rollresult/rollhistory.rs.  The decimal formatting
of a float constant is the ToString of its exact rational model. -/
def RollHistory.render : RollHistory → String
  | RollHistory.reRolls v =>
    "[" ++ String.intercalate (", ")
      (v.map (fun r => String.intercalate (" -> ") (r.map (fun d => toString d.res)))) ++ "] -> "
  | RollHistory.roll v =>
    "[" ++ String.intercalate (", ") (v.map (fun d => toString d.res)) ++ "]"
  | RollHistory.fudge v =>
    "[" ++ String.intercalate (", ")
      (v.map (fun r => if r ≤ 2 then "-" else if r ≤ 4 then "▢" else "+")) ++ "]"
  | RollHistory.value v =>
    match v with
    | Value.int i => toString i
    | Value.float f => toString f
  | RollHistory.separator s => s
  | RollHistory.openParenthesis => "("
  | RollHistory.closeParenthesis => ")"

/-- Mirrors `SingleRollResult::to_string_history`. -/
def SingleRollResult.to_string_history (s : SingleRollResult) : String :=
  s.history.foldl (fun acc v => acc ++ v.render) ""

/-- Mirrors `SingleRollResult::to_string` (with and without markdown). -/
def SingleRollResult.to_string (s : SingleRollResult) (md : Bool) : String :=
  if s.history.isEmpty then
    if md then "`" ++ toString s.total ++ "`" else toString s.total
  else
    let hist := s.to_string_history
    let tick := if md then "`" else ""
    let star := if md then "**" else ""
    tick ++ hist ++ tick ++ " = " ++ star ++ toString s.get_total ++ star

/-- Mirrors `merge_history`: append an operator separator and the right
operand's history, unless the right history is empty. -/
def merge_history (left right : SingleRollResult) (op : String) : List RollHistory :=
  if right.history.isEmpty then left.history
  else left.history ++ [RollHistory.separator op] ++ right.history

/-- Mirrors `impl Add for SingleRollResult`: plain integer addition when
neither operand carries a float constant, otherwise exact addition on the
float side truncated toward zero; the constant never survives. -/
def SingleRollResult.addRes (a b : SingleRollResult) : SingleRollResult :=
  { total :=
      match a.constant, b.constant with
      | Option.none, Option.none => a.total + b.total
      | Option.none, some c => ratTrunc ((a.total : ℚ) + c)
      | some c, Option.none => ratTrunc (c + (b.total : ℚ))
      | some c1, some c2 => ratTrunc (c1 + c2)
    history := merge_history a b (" + ")
    dirty := false
    constant := Option.none }

/-- Mirrors `impl Sub for SingleRollResult`. -/
def SingleRollResult.subRes (a b : SingleRollResult) : SingleRollResult :=
  { total :=
      match a.constant, b.constant with
      | Option.none, Option.none => a.total - b.total
      | Option.none, some c => ratTrunc ((a.total : ℚ) - c)
      | some c, Option.none => ratTrunc (c - (b.total : ℚ))
      | some c1, some c2 => ratTrunc (c1 - c2)
    history := merge_history a b (" - ")
    dirty := false
    constant := Option.none }

/-- Mirrors `impl Mul for SingleRollResult`. -/
def SingleRollResult.mulRes (a b : SingleRollResult) : SingleRollResult :=
  { total :=
      match a.constant, b.constant with
      | Option.none, Option.none => a.total * b.total
      | Option.none, some c => ratTrunc ((a.total : ℚ) * c)
      | some c, Option.none => ratTrunc (c * (b.total : ℚ))
      | some c1, some c2 => ratTrunc (c1 * c2)
    history := merge_history a b (" * ")
    dirty := false
    constant := Option.none }

/-- Truncating (toward zero) integer division, as `/` on Rust i64 behaves;
the zero divisor is unreachable in the evaluator because of the `is_zero`
guard. -/
def i64Div (x y : Int) : Int :=
  ratTrunc ((x : ℚ) / (y : ℚ))

/-- Mirrors `impl Div for SingleRollResult`. -/
def SingleRollResult.divRes (a b : SingleRollResult) : SingleRollResult :=
  { total :=
      match a.constant, b.constant with
      | Option.none, Option.none => i64Div a.total b.total
      | Option.none, some c => ratTrunc ((a.total : ℚ) / c)
      | some c, Option.none => ratTrunc (c / (b.total : ℚ))
      | some c1, some c2 => ratTrunc (c1 / c2)
    history := merge_history a b (" / ")
    dirty := false
    constant := Option.none }

/-- The randomness source, modelled as a replay stream with a cursor: one
call to `next` mirrors one call of `DiceRollSource::roll_single_die`. -/
structure Source where
  stream : Nat → Nat
  pos : Nat

/-- Draw the next value from the source. -/
def Source.next (s : Source) : Nat × Source :=
  (s.stream s.pos, { s with pos := s.pos + 1 })

/-- Mirrors `roll_dice`: request `num` dice one at a time, wrapping each
value with its critic marker. -/
def roll_dice (num sides : Nat) (src : Source) : List DiceResult × Source :=
  match num with
  | 0 => ([], src)
  | Nat.succ n =>
    let p := src.next
    let r := roll_dice n sides p.2
    (DiceResult.new p.1 sides :: r.1, r.2)

/-- One modifier node of a dice term, as produced by the grammar. -/
inductive OptionNode
  | explode (v : Option Nat)
  | iExplode (v : Option Nat)
  | reroll (v : Nat)
  | iReroll (v : Nat)
  | keepHi (v : Nat)
  | keepLo (v : Nat)
  | dropHi (v : Nat)
  | dropLo (v : Nat)
  | target (v : Nat)
  | targetEnum (vs : List Nat)
  | doubleTarget (v : Nat)
  | failure (v : Nat)
deriving DecidableEq, Repr

/-- Mirrors `compute_explode`: dice of the working set at or above the
threshold (the side count when omitted) trigger rolling that many new dice;
the current set enters the history unless the previous modifier was an
explosion, the new batch enters the history, and the new batch replaces the
working set. -/
def compute_explode (rolls : SingleRollResult) (sides : Nat) (res : List DiceResult)
    (optValue : Option Nat) (prev_modifier : TotalModifier) (src : Source) :
    (TotalModifier × List DiceResult) × SingleRollResult × Source :=
  let value := optValue.getD sides
  let nb := (res.filter (fun x => value ≤ x.res)).length
  let rolls1 :=
    if prev_modifier ≠ TotalModifier.none Rule.explode ∧
        prev_modifier ≠ TotalModifier.none Rule.iExplode then
      rolls.add_history res false
    else rolls
  if 0 < nb then
    let r := roll_dice nb sides src
    ((TotalModifier.none Rule.explode, r.1), rolls1.add_history r.1 false, r.2)
  else
    ((TotalModifier.none Rule.explode, res), rolls1, src)

/-- The while loop of `compute_i_explode`, with explicit fuel: while the
last batch holds qualifying dice, roll that many new dice.  The source has
no iteration cap, so exhausting the fuel (`outOfFuel`) models an execution
that has not terminated within that many iterations. -/
def i_explode_loop (sides value : Nat) (fuel : Nat) (nb : Nat) (res : List DiceResult)
    (rolls : SingleRollResult) (src : Source) :
    Except RollError (List DiceResult × SingleRollResult × Source) :=
  if nb = 0 then Except.ok (res, rolls, src)
  else
    match fuel with
    | 0 => Except.error RollError.outOfFuel
    | Nat.succ f =>
      let r := roll_dice nb sides src
      let nb1 := (r.1.filter (fun x => value ≤ x.res)).length
      i_explode_loop sides value f nb1 r.1 (rolls.add_history r.1 false) r.2

/-- Mirrors `compute_i_explode` (fuelled). -/
def compute_i_explode (fuel : Nat) (rolls : SingleRollResult) (sides : Nat)
    (res : List DiceResult) (optValue : Option Nat) (prev_modifier : TotalModifier)
    (src : Source) :
    Except RollError ((TotalModifier × List DiceResult) × SingleRollResult × Source) :=
  let value := optValue.getD sides
  let rolls1 :=
    if prev_modifier ≠ TotalModifier.none Rule.explode ∧
        prev_modifier ≠ TotalModifier.none Rule.iExplode then
      rolls.add_history res false
    else rolls
  let nb := (res.filter (fun x => value ≤ x.res)).length
  (i_explode_loop sides value fuel nb [] rolls1 src).map
    (fun r => ((TotalModifier.none Rule.iExplode, r.1), r.2.1, r.2.2))

/-- The per-die traversal of `compute_reroll`: each die at or below the
threshold is rerolled exactly once; every die contributes its before/after
chain and the flag records whether any reroll happened. -/
def reroll_each (sides value : Nat) :
    List DiceResult → Source → List DiceResult × List (List DiceResult) × Bool × Source
  | [], src => ([], [], false, src)
  | x :: xs, src =>
    if x.res ≤ value then
      let p := src.next
      let rerolled := DiceResult.new p.1 sides
      let r := reroll_each sides value xs p.2
      (rerolled :: r.1, [x, rerolled] :: r.2.1, true, r.2.2.2)
    else
      let r := reroll_each sides value xs src
      (x :: r.1, [x] :: r.2.1, r.2.2.1, r.2.2.2)

/-- Mirrors `compute_reroll`. -/
def compute_reroll (rolls : SingleRollResult) (sides : Nat) (res : List DiceResult)
    (value : Nat) (src : Source) :
    (TotalModifier × List DiceResult) × SingleRollResult × Source :=
  let r := reroll_each sides value res src
  let res_new := r.1
  let rerolls := r.2.1
  let has_rerolled := r.2.2.1
  let src1 := r.2.2.2
  let rolls1 := if has_rerolled then rolls.add_rerolled_history rerolls else rolls
  let rolls2 := rolls1.add_history res_new false
  ((TotalModifier.none Rule.reroll, res_new), rolls2, src1)

/-- The inner while loop of `compute_i_reroll` for one die, with explicit
fuel: reroll while the die is at or below the threshold. -/
def i_reroll_die (sides value : Nat) (fuel : Nat) (x : DiceResult) (src : Source) :
    Except RollError ((DiceResult × Bool) × Source) :=
  if x.res ≤ value then
    match fuel with
    | 0 => Except.error RollError.outOfFuel
    | Nat.succ f =>
      let p := src.next
      (i_reroll_die sides value f (DiceResult.new p.1 sides) p.2).map
        (fun r => ((r.1.1, true), r.2))
  else Except.ok ((x, false), src)

/-- The per-die traversal of `compute_i_reroll`. -/
def i_reroll_each (sides value fuel : Nat) :
    List DiceResult → Source → Except RollError ((List DiceResult × Bool) × Source)
  | [], src => Except.ok (([], false), src)
  | x :: xs, src =>
    match i_reroll_die sides value fuel x src with
    | Except.error e => Except.error e
    | Except.ok p =>
      (i_reroll_each sides value fuel xs p.2).map
        (fun r => ((p.1.1 :: r.1.1, p.1.2 || r.1.2), r.2))

/-- Mirrors `compute_i_reroll` (fuelled). -/
def compute_i_reroll (fuel : Nat) (rolls : SingleRollResult) (sides : Nat)
    (res : List DiceResult) (value : Nat) (src : Source) :
    Except RollError ((TotalModifier × List DiceResult) × SingleRollResult × Source) :=
  (i_reroll_each sides value fuel res src).map
    (fun r => ((TotalModifier.none Rule.iReroll, r.1.1),
      (if r.1.2 then rolls.add_history r.1.1 false else rolls), r.2))

/-- The tail of `compute_option`: clamp the keep/drop count to the working
set size, sort the working set ascending, and slice it according to the
modifier. -/
def clampSortSlice (modifier : TotalModifier) (res1 : List DiceResult) : List DiceResult :=
  let n : Nat :=
    match modifier with
    | TotalModifier.keepHi k | TotalModifier.keepLo k =>
      if k > res1.length then res1.length else k
    | TotalModifier.dropHi k | TotalModifier.dropLo k =>
      if k > res1.length then 0 else k
    | _ => 0
  let sorted := List.insertionSort diceLE res1
  match modifier with
  | TotalModifier.keepHi _ => sorted.drop (sorted.length - n)
  | TotalModifier.keepLo _ => sorted.take n
  | TotalModifier.dropHi _ => sorted.take (sorted.length - n)
  | TotalModifier.dropLo _ => sorted.drop n
  | _ => sorted

/-- Mirrors `compute_option`: dispatch on the modifier node, then clamp the
keep/drop count to the working set size, sort the working set ascending and
slice it. -/
def compute_option (fuel : Nat) (rolls : SingleRollResult) (sides : Nat)
    (res : List DiceResult) (opt : OptionNode) (src : Source)
    (prev_modifier : TotalModifier) :
    Except RollError ((TotalModifier × List DiceResult) × SingleRollResult × Source) :=
  let step : Except RollError ((TotalModifier × List DiceResult) × SingleRollResult × Source) :=
    match opt with
    | OptionNode.explode v => Except.ok (compute_explode rolls sides res v prev_modifier src)
    | OptionNode.iExplode v => compute_i_explode fuel rolls sides res v prev_modifier src
    | OptionNode.reroll v => Except.ok (compute_reroll rolls sides res v src)
    | OptionNode.iReroll v => compute_i_reroll fuel rolls sides res v src
    | OptionNode.keepHi v =>
      Except.ok ((TotalModifier.keepHi v, res),
        (if rolls.get_history.isEmpty then rolls.add_history res false else rolls), src)
    | OptionNode.keepLo v =>
      Except.ok ((TotalModifier.keepLo v, res),
        (if rolls.get_history.isEmpty then rolls.add_history res false else rolls), src)
    | OptionNode.dropHi v =>
      Except.ok ((TotalModifier.dropHi v, res),
        (if rolls.get_history.isEmpty then rolls.add_history res false else rolls), src)
    | OptionNode.dropLo v =>
      Except.ok ((TotalModifier.dropLo v, res),
        (if rolls.get_history.isEmpty then rolls.add_history res false else rolls), src)
    | OptionNode.target v =>
      Except.ok ((TotalModifier.targetFailureDouble v 0 0, res), rolls, src)
    | OptionNode.targetEnum vs =>
      Except.ok ((TotalModifier.targetEnum vs, res), rolls, src)
    | OptionNode.doubleTarget v =>
      Except.ok ((TotalModifier.targetFailureDouble 0 0 v, res), rolls, src)
    | OptionNode.failure v =>
      Except.ok ((TotalModifier.targetFailureDouble 0 v 0, res), rolls, src)
  step.map (fun r => ((r.1.1, clampSortSlice r.1.1 r.1.2), r.2.1, r.2.2))

/-- The modifier-merge step inside `compute_roll`'s loop: a target-family
modifier merges field-wise into an accumulated target-family strategy (the
incoming occurrence overwrites its own field); against any other
accumulated strategy it replaces it wholesale and pushes the current
working set into the history, as does a target-set modifier. -/
def merge_modifier (modifier optModifier : TotalModifier) (res1 : List DiceResult)
    (rolls1 : SingleRollResult) : TotalModifier × SingleRollResult :=
  match optModifier with
  | TotalModifier.targetFailureDouble t f d =>
    match modifier with
    | TotalModifier.targetFailureDouble ot of od =>
      ((if 0 < t then TotalModifier.targetFailureDouble t of od
        else if 0 < f then TotalModifier.targetFailureDouble ot f od
        else TotalModifier.targetFailureDouble ot of d), rolls1)
    | _ => (TotalModifier.targetFailureDouble t f d, rolls1.add_history res1 false)
  | TotalModifier.targetEnum v =>
    (TotalModifier.targetEnum v, rolls1.add_history res1 false)
  | m => (m, rolls1)

/-- The modifier loop of `compute_roll`: apply each option node in turn,
merging the resulting strategies via `merge_modifier`. -/
def applyOptions (fuel sides : Nat) :
    List OptionNode → List DiceResult → TotalModifier → SingleRollResult → Source →
    Except RollError (List DiceResult × TotalModifier × SingleRollResult × Source)
  | [], res, modifier, rolls, src => Except.ok (res, modifier, rolls, src)
  | opt :: rest, res, modifier, rolls, src =>
    match compute_option fuel rolls sides res opt src modifier with
    | Except.error e => Except.error e
    | Except.ok p =>
      let next := merge_modifier modifier p.1.1 p.1.2 p.2.1
      applyOptions fuel sides rest p.1.2 next.1 next.2 p.2.2

/-- Mirrors `MAX_DICE_SIDES`. -/
def MAX_DICE_SIDES : Nat := 5000

/-- Mirrors `MAX_NUMBER_OF_DICE`. -/
def MAX_NUMBER_OF_DICE : Nat := 5000

/-- The sides of a dice term: a number or the fudge marker. -/
inductive DiceSides
  | number (n : Nat)
  | fudge
deriving DecidableEq, Repr

/-- One dice term: optional count (1 when absent), sides and modifier list. -/
structure DiceExpr where
  count : Option Nat
  sides : DiceSides
  options : List OptionNode
deriving DecidableEq, Repr

/-- Mirrors `compute_roll`: bounds checks, the initial roll, the fudge path,
the modifier loop and the final total computation. -/
def compute_roll (fuel : Nat) (d : DiceExpr) (src : Source) :
    Except RollError (SingleRollResult × Source) :=
  let rolls := SingleRollResult.new
  let number_of_dice := d.count.getD 1
  if number_of_dice > MAX_NUMBER_OF_DICE then
    Except.error (RollError.paramError ("Exceed maximum allowed number of dices (5000)"))
  else
    let sidesFudge : Nat × Bool :=
      match d.sides with
      | DiceSides.number n => (n, false)
      | DiceSides.fudge => (6, true)
    let sides := sidesFudge.1
    let is_fudge := sidesFudge.2
    if sides = 0 then Except.error (RollError.paramError ("Dice can't have 0 sides"))
    else if sides > MAX_DICE_SIDES then
      Except.error (RollError.paramError ("Dice can't have more than 5000"))
    else
      let rolled := roll_dice number_of_dice sides src
      let res := rolled.1
      let src1 := rolled.2
      if is_fudge = false then
        match (if d.options.isEmpty then
                Except.ok (res, TotalModifier.none Rule.expr, rolls.add_history res is_fudge, src1)
              else
                applyOptions fuel sides d.options res (TotalModifier.none Rule.expr) rolls src1) with
        | Except.error e => Except.error e
        | Except.ok p =>
          match p.2.2.1.compute_total p.2.1 with
          | Except.error e => Except.error e
          | Except.ok t => Except.ok (t.2, p.2.2.2)
      else
        let rolls1 := rolls.add_history res is_fudge
        match rolls1.compute_total TotalModifier.fudge with
        | Except.error e => Except.error e
        | Except.ok t => Except.ok (t.2, src1)

/-- A parsed expression: precedence and associativity have already been
resolved by the grammar collaborator, so the pratt climb of `compute` is
embedded as structural recursion over this tree. -/
inductive Expr
  | integer (i : Int)
  | float (f : ℚ)
  | blockExpr (e : Expr)
  | dice (d : DiceExpr)
  | add (a b : Expr)
  | sub (a b : Expr)
  | mul (a b : Expr)
  | div (a b : Expr)
deriving DecidableEq, Repr

/-- Mirrors `compute` (the expression walker): leaves are constants, dice
terms and parenthesized blocks; infix nodes combine sub-results
left-to-right, division checking `is_zero` on the right operand before any
arithmetic. -/
def compute (fuel : Nat) : Expr → Source → Except RollError (SingleRollResult × Source)
  | Expr.integer i, src => Except.ok (SingleRollResult.with_total i, src)
  | Expr.float f, src => Except.ok (SingleRollResult.with_float f, src)
  | Expr.blockExpr e, src =>
    match compute fuel e src with
    | Except.error er => Except.error er
    | Except.ok p => Except.ok (p.1.add_parenthesis, p.2)
  | Expr.dice d, src => compute_roll fuel d src
  | Expr.add a b, src =>
    match compute fuel a src with
    | Except.error er => Except.error er
    | Except.ok p =>
      match compute fuel b p.2 with
      | Except.error er => Except.error er
      | Except.ok q => Except.ok (p.1.addRes q.1, q.2)
  | Expr.sub a b, src =>
    match compute fuel a src with
    | Except.error er => Except.error er
    | Except.ok p =>
      match compute fuel b p.2 with
      | Except.error er => Except.error er
      | Except.ok q => Except.ok (p.1.subRes q.1, q.2)
  | Expr.mul a b, src =>
    match compute fuel a src with
    | Except.error er => Except.error er
    | Except.ok p =>
      match compute fuel b p.2 with
      | Except.error er => Except.error er
      | Except.ok q => Except.ok (p.1.mulRes q.1, q.2)
  | Expr.div a b, src =>
    match compute fuel a src with
    | Except.error er => Except.error er
    | Except.ok p =>
      match compute fuel b p.2 with
      | Except.error er => Except.error er
      | Except.ok q =>
        if q.1.is_zero then Except.error (RollError.paramError ("Can't divide by zero"))
        else Except.ok (p.1.divRes q.1, q.2)

/-- Mirrors the `Roller` query holder. -/
structure Roller where
  input : String
deriving DecidableEq, Repr

/-- Mirrors `Roller::new`: the input is stored; construction always
succeeds. -/
def Roller.new (input : String) : Except RollError Roller :=
  Except.ok { input := input }

/-- A parsed command: the expression and the optional trailing reason. -/
structure Command where
  expression : Expr
  reason : Option String

/-- The final outcome of a roll (the single-expression branch of the
evaluator, which is the fragment the proved claims need). -/
structure RollResult where
  result : SingleRollResult
  reason : Option String

/-- Mirrors `Roller::roll_with_source`.  Modelled from the spec: the grammar
and parser (`RollParser::parse` over caith.pest, generated by pest) are an
external collaborator whose sources are not provided, so the parse step is a
parameter producing either a command or a structural parse error, which the
question-mark operator propagates verbatim before any rolling happens. -/
def Roller.roll_with_source (parse : String → Except RollError Command)
    (r : Roller) (fuel : Nat) (src : Source) :
    Except RollError (RollResult × Source) :=
  match parse r.input with
  | Except.error e => Except.error e
  | Except.ok cmd =>
    match compute fuel cmd.expression src with
    | Except.error e => Except.error e
    | Except.ok (res, src1) =>
      Except.ok ({ result := res, reason := cmd.reason }, src1)

/-- Projection of a `compute_total` outcome to its total. -/
def totalOf (r : Except RollError (Int × SingleRollResult)) : Except RollError Int :=
  r.map (fun p => p.1)

/-- Projection of a `compute_roll` outcome to its total. -/
def rollTotal (fuel : Nat) (d : DiceExpr) (src : Source) : Except RollError Int :=
  (compute_roll fuel d src).map (fun p => p.1.get_total)

/-- A replay source that always yields the same face. -/
def constStream (c : Nat) : Source :=
  { stream := fun _ => c, pos := 0 }

/-- The replay source yielding 1, 2, 3, ... in order, as in the crate's own
tests. -/
def oneUpStream : Source :=
  { stream := fun n => n + 1, pos := 0 }

/-- Strategy field assembly exactly as claim C1 words it: the first
occurrence of each kind (target, failure, double-target) fixes that field of
the accumulated (t, f, d) strategy. -/
def firstWriteWinsTFD (opts : List OptionNode) : Nat × Nat × Nat :=
  opts.foldl
    (fun acc o =>
      match o with
      | OptionNode.target v => if acc.1 = 0 then (v, acc.2.1, acc.2.2) else acc
      | OptionNode.failure v => if acc.2.1 = 0 then (acc.1, v, acc.2.2) else acc
      | OptionNode.doubleTarget v => if acc.2.2 = 0 then (acc.1, acc.2.1, v) else acc
      | _ => acc)
    (0, 0, 0)

/-- One step of the field assembly the code actually performs (for positive
thresholds): the occurrence overwrites its own kind's field and leaves the
other two fields unchanged. -/
def tfdStep (acc : Nat × Nat × Nat) (o : OptionNode) : Nat × Nat × Nat :=
  match o with
  | OptionNode.target v => (v, acc.2.1, acc.2.2)
  | OptionNode.failure v => (acc.1, v, acc.2.2)
  | OptionNode.doubleTarget v => (acc.1, acc.2.1, v)
  | _ => acc

/-- Strategy field assembly as the code actually merges it (for positive
thresholds): the last occurrence of each kind wins its field. -/
def lastWriteWinsTFD (opts : List OptionNode) : Nat × Nat × Nat :=
  opts.foldl tfdStep (0, 0, 0)

/-- The target-family modifier nodes with a positive threshold. -/
def isPosTFDNode : OptionNode → Prop
  | OptionNode.target v => 0 < v
  | OptionNode.failure v => 0 < v
  | OptionNode.doubleTarget v => 0 < v
  | _ => False

/-- Two sources agree when, from their current cursors on, they yield the
same sequence of values. -/
def SrcAgree (a b : Source) : Prop :=
  ∀ n, a.stream (a.pos + n) = b.stream (b.pos + n)

/-- Two stateful outcomes agree when their payloads are equal and their
final sources agree. -/
def PairAgree {α : Type} (x y : α × Source) : Prop :=
  x.1 = y.1 ∧ SrcAgree x.2 y.2

/-- Two fallible stateful outcomes agree when they fail identically or
succeed with equal payloads and agreeing sources. -/
def ExAgree {α : Type} : Except RollError (α × Source) → Except RollError (α × Source) → Prop
  | Except.error e1, Except.error e2 => e1 = e2
  | Except.ok x, Except.ok y => PairAgree x y
  | _, _ => False

/-- Agreement for three-component stateful outcomes. -/
def TripAgree {α β : Type} (x y : α × β × Source) : Prop :=
  x.1 = y.1 ∧ x.2.1 = y.2.1 ∧ SrcAgree x.2.2 y.2.2

/-- Agreement for four-component stateful outcomes. -/
def QuadAgree {α β γ : Type} (x y : α × β × γ × Source) : Prop :=
  x.1 = y.1 ∧ x.2.1 = y.2.1 ∧ x.2.2.1 = y.2.2.1 ∧ SrcAgree x.2.2.2 y.2.2.2

/-- `ExAgree` over three components. -/
def ExTripAgree {α β : Type} :
    Except RollError (α × β × Source) → Except RollError (α × β × Source) → Prop
  | Except.error e1, Except.error e2 => e1 = e2
  | Except.ok x, Except.ok y => TripAgree x y
  | _, _ => False

/-- `ExAgree` over four components. -/
def ExQuadAgree {α β γ : Type} :
    Except RollError (α × β × γ × Source) → Except RollError (α × β × γ × Source) → Prop
  | Except.error e1, Except.error e2 => e1 = e2
  | Except.ok x, Except.ok y => QuadAgree x y
  | _, _ => False

/-- Per-value scoring exactly as claim C2 words it, over face values: +2 if
d is set and x ≥ d; else +1 if t is set and x ≥ t; else −1 if f is set and
x ≤ f; else 0 (a field being set when nonzero). -/
def specTFDScore (t f d : Nat) (x : Nat) : Int :=
  if d ≠ 0 ∧ d ≤ x then 2
  else if t ≠ 0 ∧ t ≤ x then 1
  else if f ≠ 0 ∧ x ≤ f then -1
  else 0

/-- The four arithmetic combinators, for uniform statements about them. -/
inductive MathOp
  | add
  | sub
  | mul
  | div
deriving DecidableEq, Repr

/-- Dispatch a combinator to the corresponding operator implementation. -/
def SingleRollResult.combine (op : MathOp) (a b : SingleRollResult) : SingleRollResult :=
  match op with
  | MathOp.add => a.addRes b
  | MathOp.sub => a.subRes b
  | MathOp.mul => a.mulRes b
  | MathOp.div => a.divRes b

/-- The integer version of a combinator (division truncating toward zero). -/
def intOp (op : MathOp) (x y : Int) : Int :=
  match op with
  | MathOp.add => x + y
  | MathOp.sub => x - y
  | MathOp.mul => x * y
  | MathOp.div => i64Div x y

/-- The exact (rational) version of a combinator. -/
def ratOp (op : MathOp) (x y : ℚ) : ℚ :=
  match op with
  | MathOp.add => x + y
  | MathOp.sub => x - y
  | MathOp.mul => x * y
  | MathOp.div => x / y

/-- The value an operand contributes to floating arithmetic: its float
constant when present, its integer total otherwise. -/
def effectiveValue (s : SingleRollResult) : ℚ :=
  match s.constant with
  | some c => c
  | Option.none => (s.total : ℚ)

/-- New total of a combination exactly as claim C7 words it: plain integer
arithmetic when neither operand carries a float constant, otherwise exact
arithmetic on the effective values truncated toward zero before storage. -/
def specCombinedTotal (op : MathOp) (a b : SingleRollResult) : Int :=
  if a.constant = Option.none ∧ b.constant = Option.none then intOp op a.total b.total
  else ratTrunc (ratOp op (effectiveValue a) (effectiveValue b))

/-- The contributing values of the history a dice term has accumulated when
it reaches total computation, exactly as claim C2 and C5 read off the code:
the flattened list before sorting. -/
def contributing (s : SingleRollResult) : List Int :=
  flattenHistory s.history

/-- A concrete history carrying one batch of the faces 1..10 of a d10, used
as witness input. -/
def tenFaces : SingleRollResult :=
  SingleRollResult.new.add_history ((List.range 10).map (fun i => DiceResult.new (i + 1) 10)) false

/-- The contributing values sorted ascending, as `compute_total` prepares
them. -/
def sortedC (s : SingleRollResult) : List Int :=
  List.insertionSort (fun a b : Int => a ≤ b) (contributing s)

deriving instance DecidableEq for Except

/-- Folding a sum over a list starting from an accumulator. -/
theorem foldl_add_eq_sum (g : Int → Int) (l : List Int) (acc : Int) :
    l.foldl (fun a x => a + g x) acc = acc + (l.map g).sum := by
  induction l generalizing acc with
  | nil => simp
  | cons x xs ih => simp [ih, add_assoc]

/-- The ascending sort used by `compute_total` is a permutation of its
input. -/
theorem sortAsc_perm (l : List Int) :
    (List.insertionSort (fun a b : Int => a ≤ b) l).Perm l :=
  List.perm_insertionSort _ l

/-- The u64-to-i64 reinterpreting cast is the identity on small values. -/
theorem u64_as_i64_small (n : Nat) (h : n < 2 ^ 63) : u64_as_i64 n = n := by
  have h64 : n < 2 ^ 64 := lt_trans h (by norm_num)
  unfold u64_as_i64
  rw [Nat.mod_eq_of_lt h64]
  norm_num at h
  simp [h]

/-- The i64-to-u64 reinterpreting cast is `toNat` on in-range values. -/
theorem i64_as_u64_small (x : Int) (h0 : 0 ≤ x) (h1 : x < 2 ^ 64) :
    i64_as_u64 x = x.toNat := by
  unfold i64_as_u64
  rw [Int.emod_eq_of_lt h0 h1]

/-- On in-range values the per-value scoring of `compute_total` is exactly
the scoring rule the claim words. -/
theorem tfdScore_eq_spec (t f d : Nat) (x : Int) (h0 : 0 ≤ x) (h1 : x < 2 ^ 63) :
    tfdScore t f d x = specTFDScore t f d x.toNat := by
  have h64 : x < 2 ^ 64 := lt_trans h1 (by norm_num)
  unfold tfdScore specTFDScore
  rw [i64_as_u64_small x h0 h64]
  simp only [Nat.pos_iff_ne_zero]

/-- C2: under an accumulated target/failure/double-target strategy with
fields (t, f, d), where a field is set when nonzero, the computed total is
the sum over the contributing values x of: +2 if d is set and x ≥ d; else
+1 if t is set and x ≥ t; else −1 if f is set and x ≤ f; else 0. -/
theorem c2_tfd_scoring (s : SingleRollResult) (t f d : Nat)
    (hdirty : s.dirty = true)
    (hx : ∀ x ∈ contributing s, 0 ≤ x ∧ x < 2 ^ 63) :
    totalOf (s.compute_total (TotalModifier.targetFailureDouble t f d)) =
      Except.ok (((contributing s).map (fun x => specTFDScore t f d x.toNat)).sum) := by
  simp only [SingleRollResult.compute_total, hdirty, if_true, totalOf, Except.map, contributing]
  congr 1
  rw [foldl_add_eq_sum (tfdScore t f d) _ 0, zero_add]
  have hperm := (sortAsc_perm (flattenHistory s.history)).map (fun x => tfdScore t f d x)
  rw [hperm.sum_eq]
  congr 1
  apply List.map_congr_left
  intro x hmem
  exact tfdScore_eq_spec t f d x (hx x hmem).1 (hx x hmem).2

/-- Witness for C2: the faces 1..10 of a d10 under target 7 give total 4,
as in the crate's own target_number_test. -/
theorem c2_tfd_scoring_witness :
    totalOf (tenFaces.compute_total (TotalModifier.targetFailureDouble 7 0 0)) = Except.ok 4 := by
  have h := c2_tfd_scoring tenFaces 7 0 0 (by decide) (by decide)
  rw [h]
  decide

/-- C5: a keep-high(n), keep-low(n), drop-high(n) or drop-low(n) strategy
sorts the contributing values ascending and sums the slice that keeps or
drops the top or bottom n, and total computation fails with a parameter
error when n exceeds the number of contributing values. -/
theorem c5_keep_drop (s : SingleRollResult) (n : Nat) (hdirty : s.dirty = true) :
    List.Sorted (fun a b : Int => a ≤ b) (sortedC s) ∧
    (n > (contributing s).length →
      s.compute_total (TotalModifier.keepHi n) =
        Except.error (RollError.paramError ("Not enough dice to keep or drop")) ∧
      s.compute_total (TotalModifier.keepLo n) =
        Except.error (RollError.paramError ("Not enough dice to keep or drop")) ∧
      s.compute_total (TotalModifier.dropHi n) =
        Except.error (RollError.paramError ("Not enough dice to keep or drop")) ∧
      s.compute_total (TotalModifier.dropLo n) =
        Except.error (RollError.paramError ("Not enough dice to keep or drop"))) ∧
    (n ≤ (contributing s).length →
      totalOf (s.compute_total (TotalModifier.keepHi n)) =
        Except.ok ((sortedC s).drop ((sortedC s).length - n)).sum ∧
      totalOf (s.compute_total (TotalModifier.keepLo n)) =
        Except.ok ((sortedC s).take n).sum ∧
      totalOf (s.compute_total (TotalModifier.dropHi n)) =
        Except.ok ((sortedC s).take ((sortedC s).length - n)).sum ∧
      totalOf (s.compute_total (TotalModifier.dropLo n)) =
        Except.ok ((sortedC s).drop n).sum) := by
  have hlen : (sortedC s).length = (contributing s).length :=
    (List.perm_insertionSort _ _).length_eq
  refine ⟨List.sorted_insertionSort _ _, ?_, ?_⟩
  · intro hgt
    have hgt' : n > (List.insertionSort (fun a b : Int => a ≤ b) (flattenHistory s.history)).length := by
      rw [show (List.insertionSort (fun a b : Int => a ≤ b) (flattenHistory s.history)) = sortedC s from rfl, hlen]
      exact hgt
    refine ⟨?_, ?_, ?_, ?_⟩ <;>
      simp only [SingleRollResult.compute_total, hdirty, if_true] <;>
      rw [if_pos hgt']
  · intro hle
    have hle' : ¬ n > (List.insertionSort (fun a b : Int => a ≤ b) (flattenHistory s.history)).length := by
      rw [show (List.insertionSort (fun a b : Int => a ≤ b) (flattenHistory s.history)) = sortedC s from rfl, hlen]
      omega
    refine ⟨?_, ?_, ?_, ?_⟩ <;>
      simp only [SingleRollResult.compute_total, hdirty, if_true, totalOf, Except.map] <;>
      rw [if_neg hle'] <;>
      simp only [sortedC, contributing] <;>
      rw [foldl_add_eq_sum (fun x => x) _ 0, zero_add] <;>
      simp

/-- Truncation toward zero is the identity on integers. -/
theorem ratTrunc_intCast (n : Int) : ratTrunc ((n : ℚ)) = n := by
  unfold ratTrunc
  rw [Rat.num_intCast, Rat.den_intCast]
  simp

/-- C6: for a division node, if the right operand evaluates to an
effectively-zero result (its float constant when one is present, otherwise
its integer total, equals zero, which is exactly when `is_zero` holds),
evaluation fails with a parameter error instead of producing any outcome. -/
theorem c6_div_by_zero (a b : Expr) (fuel : Nat) (src : Source)
    (la rb : SingleRollResult) (s1 s2 : Source)
    (ha : compute fuel a src = Except.ok (la, s1))
    (hb : compute fuel b s1 = Except.ok (rb, s2))
    (hz : rb.is_zero = true) :
    compute fuel (Expr.div a b) src =
      Except.error (RollError.paramError ("Can't divide by zero")) ∧
    (∀ s : SingleRollResult, s.is_zero = true ↔
      (match s.constant with
       | some c => c = 0
       | Option.none => s.total = 0)) := by
  constructor
  · simp only [compute, ha, hb, hz, if_true]
  · intro s
    unfold SingleRollResult.is_zero
    cases s.constant with
    | some c => simp
    | none => simp

/-- Witness for C6: dividing the constant 6 by the constant 0 fails with
the divide-by-zero parameter error. -/
theorem c6_div_by_zero_witness :
    compute 0 (Expr.div (Expr.integer 6) (Expr.integer 0)) oneUpStream =
      Except.error (RollError.paramError ("Can't divide by zero")) :=
  (c6_div_by_zero (Expr.integer 6) (Expr.integer 0) 0 oneUpStream
    (SingleRollResult.with_total 6) (SingleRollResult.with_total 0) oneUpStream oneUpStream
    rfl rfl rfl).1

/-- C7: every arithmetic combinator computes the new total by plain integer
arithmetic when neither operand carries a float constant and otherwise by
exact arithmetic on the effective values truncated toward zero before
storage; the constant never survives a combination, so a literal decimal
participates unrounded exactly in the one combination which consumes it
(20 * 1.5 = 30 and 20 + 1.5 = 21, as in the crate's float tests). -/
theorem c7_combinators :
    (∀ (op : MathOp) (a b : SingleRollResult),
      (SingleRollResult.combine op a b).total = specCombinedTotal op a b ∧
      (SingleRollResult.combine op a b).constant = Option.none) ∧
    ((SingleRollResult.with_total 20).mulRes (SingleRollResult.with_float (3 / 2))).total = 30 ∧
    ((SingleRollResult.with_total 20).addRes (SingleRollResult.with_float (3 / 2))).total = 21 := by
  refine ⟨fun op a b => ⟨?_, ?_⟩, ?_, ?_⟩
  · cases op <;> rcases hc1 : a.constant with _ | c1 <;> rcases hc2 : b.constant with _ | c2 <;>
      simp [SingleRollResult.combine, SingleRollResult.addRes, SingleRollResult.subRes,
        SingleRollResult.mulRes, SingleRollResult.divRes, specCombinedTotal, hc1, hc2,
        intOp, ratOp, effectiveValue, i64Div]
  · cases op <;> rfl
  · show ratTrunc (((20 : Int) : ℚ) * (3 / 2)) = 30
    have h : ((20 : Int) : ℚ) * (3 / 2) = ((30 : Int) : ℚ) := by push_cast; norm_num
    rw [h, ratTrunc_intCast]
  · show ratTrunc (((20 : Int) : ℚ) + (3 / 2)) = 21
    have h : ((20 : Int) : ℚ) + (3 / 2) = mkRat 43 2 := by
      rw [Rat.mkRat_eq_div]; push_cast; norm_num
    rw [h]
    decide

/-- C10: `Roller::new` stores the input and returns Ok for every string,
even a syntactically invalid one; the parse step only runs inside a roll
operation, and a parse failure there is returned verbatim as the roll's
error. -/
theorem c10_new_never_fails (s : String) :
    Roller.new s = Except.ok { input := s } ∧
    (∀ (parse : String → Except RollError Command) (fuel : Nat) (src : Source)
        (e : RollError), parse s = Except.error e →
      Roller.roll_with_source parse { input := s } fuel src = Except.error e) := by
  constructor
  · rfl
  · intro parse fuel src e hp
    simp [Roller.roll_with_source, hp]

/-- Witness for C10: a malformed input is accepted by the constructor and
its parse error surfaces only at roll time. -/
theorem c10_new_never_fails_witness :
    Roller.new ("2d6 +") = Except.ok { input := "2d6 +" } ∧
    Roller.roll_with_source (fun _ => Except.error (RollError.parseError ("expected expression")))
      { input := "2d6 +" } 0 oneUpStream =
      Except.error (RollError.parseError ("expected expression")) := by
  have h := c10_new_never_fails ("2d6 +")
  exact ⟨h.1, h.2 _ 0 oneUpStream _ rfl⟩

/-- A target modifier leaves the working set (up to the unconditional
ascending sort), the rolls and the source untouched and yields the strategy
with only its own field set. -/
theorem compute_option_target (fuel : Nat) (rolls : SingleRollResult) (sides : Nat)
    (res : List DiceResult) (src : Source) (prev : TotalModifier) (v : Nat) :
    compute_option fuel rolls sides res (OptionNode.target v) src prev =
      Except.ok ((TotalModifier.targetFailureDouble v 0 0, List.insertionSort diceLE res),
        rolls, src) := rfl

/-- As `compute_option_target`, for a double-target modifier. -/
theorem compute_option_double_target (fuel : Nat) (rolls : SingleRollResult) (sides : Nat)
    (res : List DiceResult) (src : Source) (prev : TotalModifier) (v : Nat) :
    compute_option fuel rolls sides res (OptionNode.doubleTarget v) src prev =
      Except.ok ((TotalModifier.targetFailureDouble 0 0 v, List.insertionSort diceLE res),
        rolls, src) := rfl

/-- As `compute_option_target`, for a failure modifier. -/
theorem compute_option_failure (fuel : Nat) (rolls : SingleRollResult) (sides : Nat)
    (res : List DiceResult) (src : Source) (prev : TotalModifier) (v : Nat) :
    compute_option fuel rolls sides res (OptionNode.failure v) src prev =
      Except.ok ((TotalModifier.targetFailureDouble 0 v 0, List.insertionSort diceLE res),
        rolls, src) := rfl

/-- Once the accumulated strategy is of the target family, further
target-family modifiers (with positive thresholds) each overwrite their own
field and leave the others, the working set, the history and the source
unchanged. -/
theorem applyOptions_tfd_accum (fuel sides : Nat) (opts : List OptionNode)
    (res : List DiceResult) (acc : Nat × Nat × Nat) (rolls : SingleRollResult) (src : Source)
    (hres : List.Sorted diceLE res)
    (hall : ∀ o ∈ opts, isPosTFDNode o) :
    applyOptions fuel sides opts res
        (TotalModifier.targetFailureDouble acc.1 acc.2.1 acc.2.2) rolls src =
      Except.ok (res,
        TotalModifier.targetFailureDouble (opts.foldl tfdStep acc).1
          (opts.foldl tfdStep acc).2.1 (opts.foldl tfdStep acc).2.2,
        rolls, src) := by
  induction opts generalizing acc with
  | nil => rfl
  | cons o rest ih =>
    have ho := hall o (List.mem_cons_self o rest)
    have hrest : ∀ x ∈ rest, isPosTFDNode x := fun x hx => hall x (List.mem_cons_of_mem o hx)
    cases o with
    | target v =>
      have hv : 0 < v := ho
      simp only [applyOptions, compute_option_target, List.Sorted.insertionSort_eq hres,
        merge_modifier, if_pos hv, List.foldl_cons, tfdStep]
      exact ih (v, acc.2.1, acc.2.2) hrest
    | failure v =>
      have hv : 0 < v := ho
      simp only [applyOptions, compute_option_failure, List.Sorted.insertionSort_eq hres,
        merge_modifier, Nat.lt_irrefl, if_false, if_pos hv, List.foldl_cons, tfdStep]
      exact ih (acc.1, v, acc.2.2) hrest
    | doubleTarget v =>
      simp only [applyOptions, compute_option_double_target, List.Sorted.insertionSort_eq hres,
        merge_modifier, Nat.lt_irrefl, if_false, List.foldl_cons, tfdStep]
      exact ih (acc.1, acc.2.1, v) hrest
    | explode v => exact absurd ho (by simp [isPosTFDNode])
    | iExplode v => exact absurd ho (by simp [isPosTFDNode])
    | reroll v => exact absurd ho (by simp [isPosTFDNode])
    | iReroll v => exact absurd ho (by simp [isPosTFDNode])
    | keepHi v => exact absurd ho (by simp [isPosTFDNode])
    | keepLo v => exact absurd ho (by simp [isPosTFDNode])
    | dropHi v => exact absurd ho (by simp [isPosTFDNode])
    | dropLo v => exact absurd ho (by simp [isPosTFDNode])
    | targetEnum vs => exact absurd ho (by simp [isPosTFDNode])

/-- C1 as amended: on one dice term, target/failure/double-target modifiers
with positive thresholds assemble the accumulated (t, f, d) strategy
last-write-wins per field — each occurrence overwrites its own kind's field
and leaves the other two — which is order-independent exactly when each
kind occurs at most once; in particular 10d10 t7 tt9 replayed with 1..10
totals 6 and 10d10 tt7 t9 totals 8. -/
theorem c1_last_write_wins (fuel sides : Nat) (o : OptionNode) (rest : List OptionNode)
    (res : List DiceResult) (rolls : SingleRollResult) (src : Source)
    (h1 : isPosTFDNode o) (h2 : ∀ x ∈ rest, isPosTFDNode x) :
    applyOptions fuel sides (o :: rest) res (TotalModifier.none Rule.expr) rolls src =
      Except.ok (List.insertionSort diceLE res,
        TotalModifier.targetFailureDouble (lastWriteWinsTFD (o :: rest)).1
          (lastWriteWinsTFD (o :: rest)).2.1 (lastWriteWinsTFD (o :: rest)).2.2,
        rolls.add_history (List.insertionSort diceLE res) false, src) ∧
    rollTotal 0 ⟨some 10, DiceSides.number 10,
      [OptionNode.target 7, OptionNode.doubleTarget 9]⟩ oneUpStream = Except.ok 6 ∧
    rollTotal 0 ⟨some 10, DiceSides.number 10,
      [OptionNode.doubleTarget 7, OptionNode.target 9]⟩ oneUpStream = Except.ok 8 := by
  refine ⟨?_, by decide, by decide⟩
  have hsorted : List.Sorted diceLE (List.insertionSort diceLE res) :=
    List.sorted_insertionSort diceLE res
  have hfold : lastWriteWinsTFD (o :: rest) = rest.foldl tfdStep (tfdStep (0, 0, 0) o) := by
    simp [lastWriteWinsTFD]
  cases o with
  | target v =>
    simp only [applyOptions, compute_option_target, hfold]
    exact applyOptions_tfd_accum fuel sides rest _ (v, 0, 0) _ src hsorted h2
  | failure v =>
    simp only [applyOptions, compute_option_failure, hfold]
    exact applyOptions_tfd_accum fuel sides rest _ (0, v, 0) _ src hsorted h2
  | doubleTarget v =>
    simp only [applyOptions, compute_option_double_target, hfold]
    exact applyOptions_tfd_accum fuel sides rest _ (0, 0, v) _ src hsorted h2
  | explode v => exact absurd h1 (by simp [isPosTFDNode])
  | iExplode v => exact absurd h1 (by simp [isPosTFDNode])
  | reroll v => exact absurd h1 (by simp [isPosTFDNode])
  | iReroll v => exact absurd h1 (by simp [isPosTFDNode])
  | keepHi v => exact absurd h1 (by simp [isPosTFDNode])
  | keepLo v => exact absurd h1 (by simp [isPosTFDNode])
  | dropHi v => exact absurd h1 (by simp [isPosTFDNode])
  | dropLo v => exact absurd h1 (by simp [isPosTFDNode])
  | targetEnum vs => exact absurd h1 (by simp [isPosTFDNode])

/-- Drawing one value from agreeing sources yields the same value and
agreeing successors. -/
theorem srcAgree_next {a b : Source} (h : SrcAgree a b) :
    a.next.1 = b.next.1 ∧ SrcAgree a.next.2 b.next.2 := by
  constructor
  · have h0 := h 0
    simpa [Source.next] using h0
  · intro n
    show a.stream (a.pos + 1 + n) = b.stream (b.pos + 1 + n)
    have e := h (1 + n)
    rw [Nat.add_assoc, Nat.add_assoc]
    exact e

/-- Rolling dice from agreeing sources yields equal batches and agreeing
sources. -/
theorem roll_dice_agree (num sides : Nat) :
    ∀ {a b : Source}, SrcAgree a b →
      (roll_dice num sides a).1 = (roll_dice num sides b).1 ∧
      SrcAgree (roll_dice num sides a).2 (roll_dice num sides b).2 := by
  induction num with
  | zero => intro a b h; exact ⟨rfl, h⟩
  | succ m ih =>
    intro a b h
    have hn := srcAgree_next h
    have hr := ih hn.2
    constructor
    · show DiceResult.new a.next.1 sides :: (roll_dice m sides a.next.2).1 =
          DiceResult.new b.next.1 sides :: (roll_dice m sides b.next.2).1
      rw [hn.1, hr.1]
    · exact hr.2

/-- `compute_explode` is equivariant under source agreement. -/
theorem compute_explode_agree (rolls : SingleRollResult) (sides : Nat)
    (res : List DiceResult) (optValue : Option Nat) (prev : TotalModifier)
    {a b : Source} (h : SrcAgree a b) :
    TripAgree (compute_explode rolls sides res optValue prev a)
      (compute_explode rolls sides res optValue prev b) := by
  unfold compute_explode
  by_cases hnb : 0 < (res.filter (fun x => optValue.getD sides ≤ x.res)).length
  · have hr := roll_dice_agree
      (res.filter (fun x => optValue.getD sides ≤ x.res)).length sides h
    simp only [if_pos hnb]
    exact ⟨by rw [hr.1], by rw [hr.1], hr.2⟩
  · simp only [if_neg hnb]
    exact ⟨rfl, rfl, h⟩

/-- The indefinite-explosion loop is equivariant under source agreement. -/
theorem i_explode_loop_agree (sides value : Nat) (fuel : Nat) :
    ∀ (nb : Nat) (res : List DiceResult) (rolls : SingleRollResult) {a b : Source},
      SrcAgree a b →
      ExTripAgree (i_explode_loop sides value fuel nb res rolls a)
        (i_explode_loop sides value fuel nb res rolls b) := by
  induction fuel with
  | zero =>
    intro nb res rolls a b h
    by_cases hnb : nb = 0
    · simp [i_explode_loop, hnb, ExTripAgree, TripAgree, h]
    · simp [i_explode_loop, hnb, ExTripAgree]
  | succ f ih =>
    intro nb res rolls a b h
    by_cases hnb : nb = 0
    · simp [i_explode_loop, hnb, ExTripAgree, TripAgree, h]
    · have hr := roll_dice_agree nb sides h
      simp only [i_explode_loop, if_neg hnb]
      rw [hr.1]
      exact ih _ _ _ hr.2

/-- Transport of three-component agreement through a pure repackaging that
keeps the source. -/
theorem exTripAgree_map {α β α2 β2 : Type} {x y : Except RollError (α × β × Source)}
    (f : α → β → α2) (g : α → β → β2) (h : ExTripAgree x y) :
    ExTripAgree (x.map (fun r => (f r.1 r.2.1, g r.1 r.2.1, r.2.2)))
      (y.map (fun r => (f r.1 r.2.1, g r.1 r.2.1, r.2.2))) := by
  cases x <;> cases y <;> simp_all [ExTripAgree, TripAgree, Except.map]

/-- Transport of two-component agreement into a three-component repackaging
that keeps the source. -/
theorem exAgree_to_trip {α α2 β2 : Type} {x y : Except RollError (α × Source)}
    (f : α → α2) (g : α → β2) (h : ExAgree x y) :
    ExTripAgree (x.map (fun r => (f r.1, g r.1, r.2)))
      (y.map (fun r => (f r.1, g r.1, r.2))) := by
  cases x <;> cases y <;> simp_all [ExAgree, PairAgree, ExTripAgree, TripAgree, Except.map]

/-- `compute_i_explode` is equivariant under source agreement. -/
theorem compute_i_explode_agree (fuel : Nat) (rolls : SingleRollResult) (sides : Nat)
    (res : List DiceResult) (optValue : Option Nat) (prev : TotalModifier)
    {a b : Source} (h : SrcAgree a b) :
    ExTripAgree (compute_i_explode fuel rolls sides res optValue prev a)
      (compute_i_explode fuel rolls sides res optValue prev b) := by
  simp only [compute_i_explode]
  exact exTripAgree_map (fun p _ => (TotalModifier.none Rule.iExplode, p)) (fun _ q => q)
    (i_explode_loop_agree _ _ fuel _ _ _ h)

/-- Transport of two-component agreement through a pure repackaging that
keeps the source. -/
theorem exAgree_map {α α2 : Type} {x y : Except RollError (α × Source)}
    (f : α → α2) (h : ExAgree x y) :
    ExAgree (x.map (fun r => (f r.1, r.2))) (y.map (fun r => (f r.1, r.2))) := by
  cases x <;> cases y <;> simp_all [ExAgree, PairAgree, Except.map]

/-- `reroll_each` is equivariant under source agreement. -/
theorem reroll_each_agree (sides value : Nat) (xs : List DiceResult) :
    ∀ {a b : Source}, SrcAgree a b →
      QuadAgree (reroll_each sides value xs a) (reroll_each sides value xs b) := by
  induction xs with
  | nil => intro a b h; exact ⟨rfl, rfl, rfl, h⟩
  | cons x xs ih =>
    intro a b h
    by_cases hx : x.res ≤ value
    · have hn := srcAgree_next h
      have hr := ih hn.2
      simp only [reroll_each, if_pos hx]
      exact ⟨by rw [hn.1, hr.1], by rw [hn.1, hr.2.1], rfl, hr.2.2.2⟩
    · have hr := ih h
      simp only [reroll_each, if_neg hx]
      exact ⟨by rw [hr.1], by rw [hr.2.1], hr.2.2.1, hr.2.2.2⟩

/-- `compute_reroll` is equivariant under source agreement. -/
theorem compute_reroll_agree (rolls : SingleRollResult) (sides : Nat)
    (res : List DiceResult) (value : Nat) {a b : Source} (h : SrcAgree a b) :
    TripAgree (compute_reroll rolls sides res value a)
      (compute_reroll rolls sides res value b) := by
  have hr := reroll_each_agree sides value res h
  simp only [compute_reroll]
  exact ⟨by rw [hr.1], by rw [hr.1, hr.2.1, hr.2.2.1], hr.2.2.2⟩

/-- The per-die indefinite-reroll loop is equivariant under source
agreement. -/
theorem i_reroll_die_agree (sides value : Nat) (fuel : Nat) :
    ∀ (x : DiceResult) {a b : Source}, SrcAgree a b →
      ExAgree (i_reroll_die sides value fuel x a) (i_reroll_die sides value fuel x b) := by
  induction fuel with
  | zero =>
    intro x a b h
    by_cases hx : x.res ≤ value
    · simp [i_reroll_die, hx, ExAgree]
    · simp [i_reroll_die, hx, ExAgree, PairAgree, h]
  | succ f ih =>
    intro x a b h
    by_cases hx : x.res ≤ value
    · have hn := srcAgree_next h
      simp only [i_reroll_die, if_pos hx]
      rw [hn.1]
      exact exAgree_map (fun p => (p.1, true)) (ih (DiceResult.new b.next.1 sides) hn.2)
    · simp [i_reroll_die, hx, ExAgree, PairAgree, h]

/-- The indefinite-reroll traversal is equivariant under source agreement. -/
theorem i_reroll_each_agree (sides value fuel : Nat) (xs : List DiceResult) :
    ∀ {a b : Source}, SrcAgree a b →
      ExAgree (i_reroll_each sides value fuel xs a) (i_reroll_each sides value fuel xs b) := by
  induction xs with
  | nil => intro a b h; exact ⟨rfl, h⟩
  | cons x xs ih =>
    intro a b h
    have hd := i_reroll_die_agree sides value fuel x h
    simp only [i_reroll_each]
    revert hd
    cases hA : i_reroll_die sides value fuel x a with
    | error e1 =>
      cases hB : i_reroll_die sides value fuel x b with
      | error e2 => intro hd; exact hd
      | ok y => intro hd; exact absurd hd (by simp [ExAgree])
    | ok p =>
      cases hB : i_reroll_die sides value fuel x b with
      | error e2 => intro hd; exact absurd hd (by simp [ExAgree])
      | ok q =>
        intro hd
        obtain ⟨h1, h2⟩ := hd
        show ExAgree ((i_reroll_each sides value fuel xs p.2).map
            (fun r => ((p.1.1 :: r.1.1, p.1.2 || r.1.2), r.2)))
          ((i_reroll_each sides value fuel xs q.2).map
            (fun r => ((q.1.1 :: r.1.1, q.1.2 || r.1.2), r.2)))
        rw [h1]
        exact exAgree_map (fun rp => (q.1.1 :: rp.1, q.1.2 || rp.2)) (ih h2)

/-- `compute_i_reroll` is equivariant under source agreement. -/
theorem compute_i_reroll_agree (fuel : Nat) (rolls : SingleRollResult) (sides : Nat)
    (res : List DiceResult) (value : Nat) {a b : Source} (h : SrcAgree a b) :
    ExTripAgree (compute_i_reroll fuel rolls sides res value a)
      (compute_i_reroll fuel rolls sides res value b) := by
  simp only [compute_i_reroll]
  exact exAgree_to_trip (fun p => (TotalModifier.none Rule.iReroll, p.1))
    (fun p => if p.2 then rolls.add_history p.1 false else rolls)
    (i_reroll_each_agree sides value fuel res h)

/-- `compute_option` is equivariant under source agreement. -/
theorem compute_option_agree (fuel : Nat) (rolls : SingleRollResult) (sides : Nat)
    (res : List DiceResult) (opt : OptionNode) (prev : TotalModifier)
    {a b : Source} (h : SrcAgree a b) :
    ExTripAgree (compute_option fuel rolls sides res opt a prev)
      (compute_option fuel rolls sides res opt b prev) := by
  have hpost : ∀ {x y : Except RollError
      ((TotalModifier × List DiceResult) × SingleRollResult × Source)},
      ExTripAgree x y →
      ExTripAgree (x.map (fun r => ((r.1.1, clampSortSlice r.1.1 r.1.2), r.2.1, r.2.2)))
        (y.map (fun r => ((r.1.1, clampSortSlice r.1.1 r.1.2), r.2.1, r.2.2))) :=
    fun hxy => exTripAgree_map (fun p _ => (p.1, clampSortSlice p.1 p.2)) (fun _ q => q) hxy
  cases opt with
  | explode v =>
    simp only [compute_option]
    exact hpost (compute_explode_agree rolls sides res v prev h)
  | iExplode v =>
    simp only [compute_option]
    exact hpost (compute_i_explode_agree fuel rolls sides res v prev h)
  | reroll v =>
    simp only [compute_option]
    exact hpost (compute_reroll_agree rolls sides res v h)
  | iReroll v =>
    simp only [compute_option]
    exact hpost (compute_i_reroll_agree fuel rolls sides res v h)
  | keepHi v =>
    simp only [compute_option]
    exact hpost ⟨rfl, rfl, h⟩
  | keepLo v =>
    simp only [compute_option]
    exact hpost ⟨rfl, rfl, h⟩
  | dropHi v =>
    simp only [compute_option]
    exact hpost ⟨rfl, rfl, h⟩
  | dropLo v =>
    simp only [compute_option]
    exact hpost ⟨rfl, rfl, h⟩
  | target v =>
    simp only [compute_option]
    exact hpost ⟨rfl, rfl, h⟩
  | targetEnum vs =>
    simp only [compute_option]
    exact hpost ⟨rfl, rfl, h⟩
  | doubleTarget v =>
    simp only [compute_option]
    exact hpost ⟨rfl, rfl, h⟩
  | failure v =>
    simp only [compute_option]
    exact hpost ⟨rfl, rfl, h⟩

/-- The modifier loop is equivariant under source agreement. -/
theorem applyOptions_agree (fuel sides : Nat) (opts : List OptionNode) :
    ∀ (res : List DiceResult) (modifier : TotalModifier) (rolls : SingleRollResult)
      {a b : Source}, SrcAgree a b →
      ExQuadAgree (applyOptions fuel sides opts res modifier rolls a)
        (applyOptions fuel sides opts res modifier rolls b) := by
  induction opts with
  | nil => intro res m rolls a b h; exact ⟨rfl, rfl, rfl, h⟩
  | cons o rest ih =>
    intro res m rolls a b h
    have ho := compute_option_agree fuel rolls sides res o m h
    simp only [applyOptions]
    revert ho
    cases hA : compute_option fuel rolls sides res o a m with
    | error e1 =>
      cases hB : compute_option fuel rolls sides res o b m with
      | error e2 => intro ho; exact ho
      | ok q => intro ho; exact absurd ho (by simp [ExTripAgree])
    | ok p =>
      cases hB : compute_option fuel rolls sides res o b m with
      | error e2 => intro ho; exact absurd ho (by simp [ExTripAgree])
      | ok q =>
        intro ho
        obtain ⟨h1, h2, h3⟩ := ho
        show ExQuadAgree
            (applyOptions fuel sides rest p.1.2 (merge_modifier m p.1.1 p.1.2 p.2.1).1
              (merge_modifier m p.1.1 p.1.2 p.2.1).2 p.2.2)
            (applyOptions fuel sides rest q.1.2 (merge_modifier m q.1.1 q.1.2 q.2.1).1
              (merge_modifier m q.1.1 q.1.2 q.2.1).2 q.2.2)
        rw [h1, h2]
        exact ih _ _ _ h3

/-- `compute_roll` is equivariant under source agreement. -/
theorem compute_roll_agree (fuel : Nat) (d : DiceExpr) {a b : Source} (h : SrcAgree a b) :
    ExAgree (compute_roll fuel d a) (compute_roll fuel d b) := by
  obtain ⟨cnt, ds, opts⟩ := d
  by_cases hcnt : cnt.getD 1 > MAX_NUMBER_OF_DICE
  · simp only [compute_roll, if_pos hcnt]; exact rfl
  cases ds with
  | number n =>
    simp only [compute_roll, if_neg hcnt]
    by_cases h0 : n = 0
    · simp only [if_pos h0]; exact rfl
    simp only [if_neg h0]
    by_cases hmax : n > MAX_DICE_SIDES
    · simp only [if_pos hmax]; exact rfl
    simp only [if_neg hmax, if_true]
    have hr := roll_dice_agree (cnt.getD 1) n h
    rw [hr.1]
    cases hempty : opts.isEmpty with
    | true =>
      simp only [eq_self_iff_true, if_true]
      cases hct : (SingleRollResult.new.add_history (roll_dice (cnt.getD 1) n b).1
          false).compute_total (TotalModifier.none Rule.expr) with
      | error e => exact rfl
      | ok t => exact ⟨rfl, hr.2⟩
    | false =>
      simp only [Bool.false_eq_true, if_false]
      have hq := applyOptions_agree fuel n opts ((roll_dice (cnt.getD 1) n b).1)
        (TotalModifier.none Rule.expr) SingleRollResult.new hr.2
      revert hq
      cases hA3 : applyOptions fuel n opts (roll_dice (cnt.getD 1) n b).1
          (TotalModifier.none Rule.expr) SingleRollResult.new (roll_dice (cnt.getD 1) n a).2 with
      | error e1 =>
        cases hB3 : applyOptions fuel n opts (roll_dice (cnt.getD 1) n b).1
            (TotalModifier.none Rule.expr) SingleRollResult.new
            (roll_dice (cnt.getD 1) n b).2 with
        | error e2 => intro hq; exact hq
        | ok q => intro hq; exact absurd hq (by simp [ExQuadAgree])
      | ok p =>
        cases hB3 : applyOptions fuel n opts (roll_dice (cnt.getD 1) n b).1
            (TotalModifier.none Rule.expr) SingleRollResult.new
            (roll_dice (cnt.getD 1) n b).2 with
        | error e2 => intro hq; exact absurd hq (by simp [ExQuadAgree])
        | ok q =>
          intro hq
          obtain ⟨h1, h2, h3, h4⟩ := hq
          show ExAgree
            (match p.2.2.1.compute_total p.2.1 with
             | Except.error e => Except.error e
             | Except.ok t => Except.ok (t.2, p.2.2.2))
            (match q.2.2.1.compute_total q.2.1 with
             | Except.error e => Except.error e
             | Except.ok t => Except.ok (t.2, q.2.2.2))
          rw [h2, h3]
          cases hct : q.2.2.1.compute_total q.2.1 with
          | error e => exact rfl
          | ok t => exact ⟨rfl, h4⟩
  | fudge =>
    simp only [compute_roll, if_neg hcnt]
    norm_num [MAX_DICE_SIDES]
    have hr := roll_dice_agree (cnt.getD 1) 6 h
    rw [hr.1]
    cases hct : ((SingleRollResult.new.add_history
        (roll_dice (cnt.getD 1) 6 b).1 true).compute_total TotalModifier.fudge) with
    | error e => exact rfl
    | ok t => exact ⟨rfl, hr.2⟩

/-- The expression walker is equivariant under source agreement: only the
sequence of values drawn from the source matters. -/
theorem compute_agree (fuel : Nat) : ∀ (e : Expr) {a b : Source}, SrcAgree a b →
    ExAgree (compute fuel e a) (compute fuel e b) := by
  intro e
  induction e with
  | integer i => intro a b h; exact ⟨rfl, h⟩
  | float f => intro a b h; exact ⟨rfl, h⟩
  | dice d => intro a b h; exact compute_roll_agree fuel d h
  | blockExpr e ih =>
    intro a b h
    have he := ih h
    simp only [compute]
    revert he
    cases hA : compute fuel e a with
    | error e1 =>
      cases hB : compute fuel e b with
      | error e2 => intro he; exact he
      | ok q => intro he; exact absurd he (by simp [ExAgree])
    | ok p =>
      cases hB : compute fuel e b with
      | error e2 => intro he; exact absurd he (by simp [ExAgree])
      | ok q =>
        intro he
        obtain ⟨h1, h2⟩ := he
        exact ⟨by rw [h1], h2⟩
  | add x y ihx ihy =>
    intro a b h
    have hx := ihx h
    simp only [compute]
    revert hx
    cases hA : compute fuel x a with
    | error e1 =>
      cases hB : compute fuel x b with
      | error e2 => intro hx; exact hx
      | ok q => intro hx; exact absurd hx (by simp [ExAgree])
    | ok p =>
      cases hB : compute fuel x b with
      | error e2 => intro hx; exact absurd hx (by simp [ExAgree])
      | ok q =>
        intro hx
        obtain ⟨h1, h2⟩ := hx
        have hy := ihy h2
        show ExAgree
          (match compute fuel y p.2 with
           | Except.error er => Except.error er
           | Except.ok q2 => Except.ok (p.1.addRes q2.1, q2.2))
          (match compute fuel y q.2 with
           | Except.error er => Except.error er
           | Except.ok q2 => Except.ok (q.1.addRes q2.1, q2.2))
        revert hy
        cases hA2 : compute fuel y p.2 with
        | error e1 =>
          cases hB2 : compute fuel y q.2 with
          | error e2 => intro hy; exact hy
          | ok q2 => intro hy; exact absurd hy (by simp [ExAgree])
        | ok p2 =>
          cases hB2 : compute fuel y q.2 with
          | error e2 => intro hy; exact absurd hy (by simp [ExAgree])
          | ok q2 =>
            intro hy
            obtain ⟨h3, h4⟩ := hy
            exact ⟨by simp [h1, h3], h4⟩
  | sub x y ihx ihy =>
    intro a b h
    have hx := ihx h
    simp only [compute]
    revert hx
    cases hA : compute fuel x a with
    | error e1 =>
      cases hB : compute fuel x b with
      | error e2 => intro hx; exact hx
      | ok q => intro hx; exact absurd hx (by simp [ExAgree])
    | ok p =>
      cases hB : compute fuel x b with
      | error e2 => intro hx; exact absurd hx (by simp [ExAgree])
      | ok q =>
        intro hx
        obtain ⟨h1, h2⟩ := hx
        have hy := ihy h2
        show ExAgree
          (match compute fuel y p.2 with
           | Except.error er => Except.error er
           | Except.ok q2 => Except.ok (p.1.subRes q2.1, q2.2))
          (match compute fuel y q.2 with
           | Except.error er => Except.error er
           | Except.ok q2 => Except.ok (q.1.subRes q2.1, q2.2))
        revert hy
        cases hA2 : compute fuel y p.2 with
        | error e1 =>
          cases hB2 : compute fuel y q.2 with
          | error e2 => intro hy; exact hy
          | ok q2 => intro hy; exact absurd hy (by simp [ExAgree])
        | ok p2 =>
          cases hB2 : compute fuel y q.2 with
          | error e2 => intro hy; exact absurd hy (by simp [ExAgree])
          | ok q2 =>
            intro hy
            obtain ⟨h3, h4⟩ := hy
            exact ⟨by simp [h1, h3], h4⟩
  | mul x y ihx ihy =>
    intro a b h
    have hx := ihx h
    simp only [compute]
    revert hx
    cases hA : compute fuel x a with
    | error e1 =>
      cases hB : compute fuel x b with
      | error e2 => intro hx; exact hx
      | ok q => intro hx; exact absurd hx (by simp [ExAgree])
    | ok p =>
      cases hB : compute fuel x b with
      | error e2 => intro hx; exact absurd hx (by simp [ExAgree])
      | ok q =>
        intro hx
        obtain ⟨h1, h2⟩ := hx
        have hy := ihy h2
        show ExAgree
          (match compute fuel y p.2 with
           | Except.error er => Except.error er
           | Except.ok q2 => Except.ok (p.1.mulRes q2.1, q2.2))
          (match compute fuel y q.2 with
           | Except.error er => Except.error er
           | Except.ok q2 => Except.ok (q.1.mulRes q2.1, q2.2))
        revert hy
        cases hA2 : compute fuel y p.2 with
        | error e1 =>
          cases hB2 : compute fuel y q.2 with
          | error e2 => intro hy; exact hy
          | ok q2 => intro hy; exact absurd hy (by simp [ExAgree])
        | ok p2 =>
          cases hB2 : compute fuel y q.2 with
          | error e2 => intro hy; exact absurd hy (by simp [ExAgree])
          | ok q2 =>
            intro hy
            obtain ⟨h3, h4⟩ := hy
            exact ⟨by simp [h1, h3], h4⟩
  | div x y ihx ihy =>
    intro a b h
    have hx := ihx h
    simp only [compute]
    revert hx
    cases hA : compute fuel x a with
    | error e1 =>
      cases hB : compute fuel x b with
      | error e2 => intro hx; exact hx
      | ok q => intro hx; exact absurd hx (by simp [ExAgree])
    | ok p =>
      cases hB : compute fuel x b with
      | error e2 => intro hx; exact absurd hx (by simp [ExAgree])
      | ok q =>
        intro hx
        obtain ⟨h1, h2⟩ := hx
        have hy := ihy h2
        show ExAgree
          (match compute fuel y p.2 with
           | Except.error er => Except.error er
           | Except.ok q2 =>
             if q2.1.is_zero then
               Except.error (RollError.paramError ("Can't divide by zero"))
             else Except.ok (p.1.divRes q2.1, q2.2))
          (match compute fuel y q.2 with
           | Except.error er => Except.error er
           | Except.ok q2 =>
             if q2.1.is_zero then
               Except.error (RollError.paramError ("Can't divide by zero"))
             else Except.ok (q.1.divRes q2.1, q2.2))
        revert hy
        cases hA2 : compute fuel y p.2 with
        | error e1 =>
          cases hB2 : compute fuel y q.2 with
          | error e2 => intro hy; exact hy
          | ok q2 => intro hy; exact absurd hy (by simp [ExAgree])
        | ok p2 =>
          cases hB2 : compute fuel y q.2 with
          | error e2 => intro hy; exact absurd hy (by simp [ExAgree])
          | ok q2 =>
            intro hy
            obtain ⟨h3, h4⟩ := hy
            show ExAgree
              (if p2.1.is_zero = true then
                 Except.error (RollError.paramError ("Can't divide by zero"))
               else Except.ok (p.1.divRes p2.1, p2.2))
              (if q2.1.is_zero = true then
                 Except.error (RollError.paramError ("Can't divide by zero"))
               else Except.ok (q.1.divRes q2.1, q2.2))
            rw [h3]
            cases hz : q2.1.is_zero with
            | true => exact rfl
            | false =>
              simp only [Bool.false_eq_true, if_false]
              exact ⟨by simp [h1], h4⟩

/-- C9: evaluation is deterministic in the randomness source — two
evaluations of the same parsed expression against independently constructed
replay sources that yield identical value sequences (sources that agree
from their cursors on) either fail with the same error or produce equal
single-expression results, in particular identical totals and identical
rendered history text, and they consume sources that still agree. -/
theorem c9_determinism (e : Expr) (fuel : Nat) (s1 s2 : Source) (h : SrcAgree s1 s2) :
    ExAgree (compute fuel e s1) (compute fuel e s2) ∧
    (∀ (r1 : SingleRollResult) (o1 : Source) (r2 : SingleRollResult) (o2 : Source),
      compute fuel e s1 = Except.ok (r1, o1) → compute fuel e s2 = Except.ok (r2, o2) →
      r1 = r2 ∧ r1.get_total = r2.get_total ∧
        r1.to_string_history = r2.to_string_history ∧ SrcAgree o1 o2) := by
  have hm := compute_agree fuel e h
  refine ⟨hm, ?_⟩
  intro r1 o1 r2 o2 h1 h2
  rw [h1, h2] at hm
  obtain ⟨hp, hs⟩ := hm
  have hr : r1 = r2 := hp
  exact ⟨hr, by rw [hr], by rw [hr], hs⟩

/-- Witness for C9: two separately constructed replay sources for the
sequence 1, 2, 3, ... drive 2d6 to exactly agreeing outcomes. -/
theorem c9_determinism_witness :
    SrcAgree oneUpStream { stream := fun n => 1 + n, pos := 0 } ∧
    ExAgree (compute 0 (Expr.dice ⟨some 2, DiceSides.number 6, []⟩) oneUpStream)
      (compute 0 (Expr.dice ⟨some 2, DiceSides.number 6, []⟩)
        { stream := fun n => 1 + n, pos := 0 }) := by
  have h : SrcAgree oneUpStream { stream := fun n => 1 + n, pos := 0 } := by
    intro n
    show (0 + n) + 1 = 1 + (0 + n)
    omega
  exact ⟨h, (c9_determinism (Expr.dice ⟨some 2, DiceSides.number 6, []⟩) 0 _ _ h).1⟩

/-- Rolling any number of dice from a constant source yields that face
repeated, and the stream is unchanged. -/
theorem roll_dice_const (n s c : Nat) :
    ∀ (src : Source), src.stream = (fun _ => c) →
      (roll_dice n s src).1 = List.replicate n (DiceResult.new c s) ∧
      (roll_dice n s src).2.stream = src.stream := by
  induction n with
  | zero => intro src hs; exact ⟨rfl, rfl⟩
  | succ m ih =>
    intro src hs
    have ihs := ih { stream := src.stream, pos := src.pos + 1 } hs
    constructor
    · show DiceResult.new (src.stream src.pos) s ::
          (roll_dice m s { stream := src.stream, pos := src.pos + 1 }).1 =
          List.replicate (m + 1) (DiceResult.new c s)
      rw [List.replicate_succ, ihs.1]
      simp [hs]
    · show (roll_dice m s { stream := src.stream, pos := src.pos + 1 }).2.stream = src.stream
      exact ihs.2

/-- The indefinite-explosion loop of the engine never terminates against a
source that always yields a qualifying face: no finite iteration budget
suffices. -/
theorem i_explode_loop_const_diverges (fuel : Nat) :
    ∀ (nb : Nat) (res : List DiceResult) (rolls : SingleRollResult) (src : Source),
      src.stream = (fun _ => 6) → nb ≠ 0 →
      i_explode_loop 6 6 fuel nb res rolls src = Except.error RollError.outOfFuel := by
  induction fuel with
  | zero =>
    intro nb res rolls src hs hnb
    simp [i_explode_loop, hnb]
  | succ f ih =>
    intro nb res rolls src hs hnb
    have hr := roll_dice_const nb 6 6 src hs
    have hfilter : ((roll_dice nb 6 src).1.filter (fun x => 6 ≤ x.res)).length = nb := by
      rw [hr.1]
      simp [List.filter_replicate, DiceResult.new]
    simp only [i_explode_loop, if_neg hnb]
    rw [hfilter]
    exact ih nb (roll_dice nb 6 src).1 (rolls.add_history (roll_dice nb 6 src).1 false)
      (roll_dice nb 6 src).2 (hr.2.trans hs) hnb

/-- `compute_i_explode` diverges whenever some die of the incoming set
qualifies and the source always yields the qualifying face 6. -/
theorem compute_i_explode_const_diverges (fuel : Nat) (res : List DiceResult)
    (rolls : SingleRollResult) (src : Source)
    (hs : src.stream = (fun _ => 6))
    (hnb : (res.filter (fun x => 6 ≤ x.res)).length ≠ 0) :
    compute_i_explode fuel rolls 6 res Option.none (TotalModifier.none Rule.expr) src =
      Except.error RollError.outOfFuel := by
  have hstep : compute_i_explode fuel rolls 6 res Option.none
      (TotalModifier.none Rule.expr) src =
      (i_explode_loop 6 6 fuel ((res.filter (fun x => 6 ≤ x.res)).length) []
          (rolls.add_history res false) src).map
        (fun r => ((TotalModifier.none Rule.iExplode, r.1), r.2.1, r.2.2)) := rfl
  rw [hstep, i_explode_loop_const_diverges fuel _ [] (rolls.add_history res false) src hs hnb]
  rfl

/-- C3 (the claim's failing input): the engine imposes no iteration cap on
the indefinite explode at all — evaluation of 3d6 ie against a replay
source that always yields 6 completes within no finite iteration budget, in
particular not within the documented default of 100. -/
theorem c3_no_explosion_cap (fuel : Nat) :
    compute_roll fuel ⟨some 3, DiceSides.number 6, [OptionNode.iExplode Option.none]⟩
      (constStream 6) = Except.error RollError.outOfFuel := by
  have hroll : compute_roll fuel
      ⟨some 3, DiceSides.number 6, [OptionNode.iExplode Option.none]⟩ (constStream 6) =
      match applyOptions fuel 6 [OptionNode.iExplode Option.none]
          (List.replicate 3 (DiceResult.new 6 6)) (TotalModifier.none Rule.expr)
          SingleRollResult.new { stream := fun _ => 6, pos := 3 } with
      | Except.error e => Except.error e
      | Except.ok p =>
        match p.2.2.1.compute_total p.2.1 with
        | Except.error e => Except.error e
        | Except.ok t => Except.ok (t.2, p.2.2.2) := rfl
  have hie : compute_i_explode fuel SingleRollResult.new 6
      (List.replicate 3 (DiceResult.new 6 6)) Option.none (TotalModifier.none Rule.expr)
      { stream := fun _ => 6, pos := 3 } = Except.error RollError.outOfFuel :=
    compute_i_explode_const_diverges fuel _ _ _ rfl (by decide)
  have hopts : applyOptions fuel 6 [OptionNode.iExplode Option.none]
      (List.replicate 3 (DiceResult.new 6 6)) (TotalModifier.none Rule.expr)
      SingleRollResult.new { stream := fun _ => 6, pos := 3 } =
      Except.error RollError.outOfFuel := by
    simp only [applyOptions, compute_option, hie, Except.map]
  rw [hroll, hopts]

/-- Under any plain-sum strategy the total is the sum of all contributing
values. -/
theorem compute_total_plain_sum (s : SingleRollResult) (hdirty : s.dirty = true) (r : Rule) :
    totalOf (s.compute_total (TotalModifier.none r)) = Except.ok (contributing s).sum := by
  simp only [SingleRollResult.compute_total, hdirty, if_true, totalOf, Except.map, contributing]
  congr 1
  rw [foldl_add_eq_sum (fun x => x) _ 0, zero_add]
  have hperm := (sortAsc_perm (flattenHistory s.history)).map (fun x : Int => x)
  rw [hperm.sum_eq]
  simp

/-- C4 as amended: a single explode (threshold defaulting to the side
count) rolls one new die per qualifying die of the working set; the
original set and the new batch both enter the history — so the plain-sum
total strategy it installs covers original and exploded dice — but the
working set handed to subsequent modifiers is replaced by the new batch
(and left unchanged when no die qualifies). -/
theorem c4_explode_replaces (rolls : SingleRollResult) (sides : Nat) (res : List DiceResult)
    (optValue : Option Nat) (prev : TotalModifier) (src : Source)
    (hprev : prev ≠ TotalModifier.none Rule.explode ∧ prev ≠ TotalModifier.none Rule.iExplode) :
    ((compute_explode rolls sides res optValue prev src).1.1 = TotalModifier.none Rule.explode) ∧
    (∀ (s : SingleRollResult), s.dirty = true → ∀ (r : Rule),
      totalOf (s.compute_total (TotalModifier.none r)) = Except.ok (contributing s).sum) ∧
    (0 < (res.filter (fun x => optValue.getD sides ≤ x.res)).length →
      (compute_explode rolls sides res optValue prev src).1.2 =
        (roll_dice (res.filter (fun x => optValue.getD sides ≤ x.res)).length sides src).1 ∧
      (compute_explode rolls sides res optValue prev src).2.1.history =
        rolls.history ++
          [RollHistory.roll (List.insertionSort diceGE res),
           RollHistory.roll (List.insertionSort diceGE
             (roll_dice (res.filter (fun x => optValue.getD sides ≤ x.res)).length sides src).1)]) ∧
    ((res.filter (fun x => optValue.getD sides ≤ x.res)).length = 0 →
      (compute_explode rolls sides res optValue prev src).1.2 = res ∧
      (compute_explode rolls sides res optValue prev src).2.1.history =
        rolls.history ++ [RollHistory.roll (List.insertionSort diceGE res)]) := by
  refine ⟨?_, fun s h r => compute_total_plain_sum s h r, ?_, ?_⟩
  · unfold compute_explode
    rw [if_pos hprev]
    by_cases hnb : 0 < (res.filter (fun x => optValue.getD sides ≤ x.res)).length
    · rw [if_pos hnb]
    · rw [if_neg hnb]
  · intro hnb
    unfold compute_explode
    rw [if_pos hprev, if_pos hnb]
    exact ⟨rfl, by simp [SingleRollResult.add_history]⟩
  · intro hnb
    unfold compute_explode
    rw [if_pos hprev, if_neg (by omega : ¬ 0 < (res.filter (fun x => optValue.getD sides ≤ x.res)).length)]
    exact ⟨rfl, by simp [SingleRollResult.add_history]⟩

/-- Witness for C4: one qualifying d6 die explodes into one new die and the
installed strategy is the plain-sum explode marker. -/
theorem c4_explode_replaces_witness :
    (compute_explode SingleRollResult.new 6 [DiceResult.new 6 6] Option.none
      (TotalModifier.none Rule.expr) (constStream 3)).1.1 = TotalModifier.none Rule.explode :=
  (c4_explode_replaces SingleRollResult.new 6 [DiceResult.new 6 6] Option.none
    (TotalModifier.none Rule.expr) (constStream 3) (by decide)).1

/-- C4 counterexample: with working set faces [6, 3] on a d6 and the default
threshold, the explosion keeps only the freshly rolled batch (face 5) as the
working set: the original faces are not part of it, so the new dice are not
appended to the working value set. -/
theorem c4_counterexample :
    ((compute_explode SingleRollResult.new 6 [DiceResult.new 6 6, DiceResult.new 3 6]
        Option.none (TotalModifier.none Rule.expr) (constStream 5)).1.2).map
        (fun d => d.res) = [5] ∧
    ¬ (3 ∈ ((compute_explode SingleRollResult.new 6 [DiceResult.new 6 6, DiceResult.new 3 6]
        Option.none (TotalModifier.none Rule.expr) (constStream 5)).1.2).map
        (fun d => d.res)) := by
  exact ⟨by decide, by decide⟩

/-- C1 counterexample: on the dice term 10d10 t7 t9 replayed with 1..10 the
accumulated strategy carries t = 9 — the second occurrence overwrote the
first, so the first occurrence of a kind does not fix its field — and the
total is 2, whereas the claim's first-write-wins assembly fixes t = 7 and
demands total 4. -/
theorem c1_counterexample :
    (applyOptions 0 10 [OptionNode.target 7, OptionNode.target 9]
        ((List.range 10).map (fun i => DiceResult.new (i + 1) 10))
        (TotalModifier.none Rule.expr) SingleRollResult.new oneUpStream).map
        (fun out => out.2.1) =
      Except.ok (TotalModifier.targetFailureDouble 9 0 0) ∧
    firstWriteWinsTFD [OptionNode.target 7, OptionNode.target 9] = (7, 0, 0) ∧
    rollTotal 0 ⟨some 10, DiceSides.number 10, [OptionNode.target 7, OptionNode.target 9]⟩
      oneUpStream = Except.ok 2 ∧
    totalOf (tenFaces.compute_total (TotalModifier.targetFailureDouble 7 0 0)) = Except.ok 4 ∧
    TotalModifier.targetFailureDouble 9 0 0 ≠ TotalModifier.targetFailureDouble 7 0 0 ∧
    (2 : Int) ≠ 4 := by
  refine ⟨by decide, by decide, by decide, by decide, by decide, by decide⟩

/-- Witness for C1: the amended statement applied to the concrete term
10d10 t7 tt9 replayed with 1..10, total 6. -/
theorem c1_last_write_wins_witness :
    rollTotal 0 ⟨some 10, DiceSides.number 10,
      [OptionNode.target 7, OptionNode.doubleTarget 9]⟩ oneUpStream = Except.ok 6 :=
  (c1_last_write_wins 0 10 (OptionNode.target 7) [] [] SingleRollResult.new oneUpStream
    (by simp [isPosTFDNode]) (by intro x hx; cases hx)).2.1

/-- Witness for C5: three contributing dice 2, 7, 9; dropping the lowest
gives 16, keeping more dice than there are fails. -/
theorem c5_keep_drop_witness :
    totalOf ((SingleRollResult.new.add_history
        [DiceResult.new 2 10, DiceResult.new 7 10, DiceResult.new 9 10] false).compute_total
        (TotalModifier.dropLo 1)) = Except.ok 16 ∧
    (SingleRollResult.new.add_history
        [DiceResult.new 2 10, DiceResult.new 7 10, DiceResult.new 9 10] false).compute_total
        (TotalModifier.keepHi 5) =
      Except.error (RollError.paramError ("Not enough dice to keep or drop")) := by
  constructor
  · have h := (c5_keep_drop (SingleRollResult.new.add_history
      [DiceResult.new 2 10, DiceResult.new 7 10, DiceResult.new 9 10] false) 1 (by decide)).2.2
        (by decide)
    rw [h.2.2.2]
    decide
  · have h := (c5_keep_drop (SingleRollResult.new.add_history
      [DiceResult.new 2 10, DiceResult.new 7 10, DiceResult.new 9 10] false) 5 (by decide)).2.1
        (by decide)
    exact h.1

end Caith
